import Mathlib

/-!
Shallow embedding of the resume-shortlister matching core
(`supabase/functions/match-resumes/index.ts` and the parse-document handler).

Text is modelled as `List Char`.  JavaScript numbers are modelled as exact
real (or, in the purely rational accumulation phase, rational) arithmetic.
External capabilities (the primary embedding model, the PDF/DOCX parsers,
the record store) are oracle parameters.
-/

/-- The character class of the JavaScript regex `\s` (whitespace). -/
def isJsWhitespace (c : Char) : Bool :=
  c == ' ' || c == '\t' || c == '\n' || c == '\r' ||
  c.toNat == 11 || c.toNat == 12 ||
  c.toNat == 0xa0 || c.toNat == 0x1680 ||
  (0x2000 ≤ c.toNat && c.toNat ≤ 0x200a) ||
  c.toNat == 0x2028 || c.toNat == 0x2029 || c.toNat == 0x202f ||
  c.toNat == 0x205f || c.toNat == 0x3000 || c.toNat == 0xfeff

/-- `String.prototype.toLowerCase`, modelled on the ASCII range
(the inputs of interest are ASCII; astral-plane case mapping is out of scope). -/
def jsToLower : Char → Char
  | 'A' => 'a' | 'B' => 'b' | 'C' => 'c' | 'D' => 'd' | 'E' => 'e'
  | 'F' => 'f' | 'G' => 'g' | 'H' => 'h' | 'I' => 'i' | 'J' => 'j'
  | 'K' => 'k' | 'L' => 'l' | 'M' => 'm' | 'N' => 'n' | 'O' => 'o'
  | 'P' => 'p' | 'Q' => 'q' | 'R' => 'r' | 'S' => 's' | 'T' => 't'
  | 'U' => 'u' | 'V' => 'v' | 'W' => 'w' | 'X' => 'x' | 'Y' => 'y'
  | 'Z' => 'z' | c => c

mutual

/-- `text.split(/\s+/)`: accumulating a current (reversed) word. -/
def splitWsAux : List Char → List Char → List (List Char)
  | acc, [] => [acc.reverse]
  | acc, c :: rest =>
    if isJsWhitespace c then acc.reverse :: splitWsSkip rest
    else splitWsAux (c :: acc) rest

/-- `text.split(/\s+/)`: inside a maximal whitespace run (already emitted). -/
def splitWsSkip : List Char → List (List Char)
  | [] => [[]]
  | c :: rest =>
    if isJsWhitespace c then splitWsSkip rest
    else splitWsAux [c] rest

end

/-- `text.split(/\s+/)` (a leading or trailing whitespace run yields an
empty word, exactly as in JavaScript). -/
def splitWs (text : List Char) : List (List Char) :=
  splitWsAux [] text

/-- Inner loop of `generateFallbackEmbedding`:
`for (let j = 0; j < word.length; j++) embedding[(i+j) % embedding.length] += word.charCodeAt(j) / 1000`.
`charCodeAt` is modelled as the code point (identical on the BMP). -/
def addChars : List ℚ → Nat → Nat → List Char → List ℚ
  | emb, _, _, [] => emb
  | emb, i, j, c :: cs =>
    addChars
      (emb.set ((i + j) % emb.length)
        (emb.getD ((i + j) % emb.length) 0 + (c.toNat : ℚ) / 1000))
      i (j + 1) cs

/-- Outer loop of `generateFallbackEmbedding`:
`for (let i = 0; i < words.length && i < embedding.length; i++)`. -/
def loopWords : List ℚ → Nat → List (List Char) → List ℚ
  | emb, _, [] => emb
  | emb, i, w :: ws =>
    if i < emb.length then loopWords (addChars emb i 0 w) (i + 1) ws else emb

/-- The accumulation phase of `generateFallbackEmbedding`
(lowercase, split on whitespace, hash characters into 384 slots). -/
def fallbackAccum (text : List Char) : List ℚ :=
  loopWords (List.replicate 384 0) 0 (splitWs (text.map jsToLower))

/-- `embedding.reduce((sum, val) => sum + val * val, 0)`, computed exactly in ℚ. -/
def sumSqQ (emb : List ℚ) : ℚ :=
  emb.foldl (fun sum val => sum + val * val) 0

/-- The normalization phase of `generateFallbackEmbedding`:
`magnitude = Math.sqrt(reduce ...)`; `map(val => magnitude > 0 ? val / magnitude : 0)`. -/
noncomputable def normalizeEmbedding (emb : List ℚ) : List ℝ :=
  emb.map (fun (val : ℚ) =>
    if 0 < Real.sqrt ((sumSqQ emb : ℚ) : ℝ)
    then (val : ℝ) / Real.sqrt ((sumSqQ emb : ℚ) : ℝ) else 0)

/-- `generateFallbackEmbedding` from `match-resumes/index.ts`. -/
noncomputable def generateFallbackEmbedding (text : List Char) : List ℝ :=
  normalizeEmbedding (fallbackAccum text)

/-- `generateEmbedding`: the primary `Supabase.ai` model call is an oracle
`model : List Char → Except String (List ℝ)`; on error the deterministic
fallback is returned instead. -/
noncomputable def generateEmbedding (model : List Char → Except String (List ℝ))
    (text : List Char) : List ℝ :=
  match model text with
  | Except.ok embedding => embedding
  | Except.error _ => generateFallbackEmbedding text

/-- `calculateCosineSimilarity` from `match-resumes/index.ts`: one loop
accumulating the dot product and both squared magnitudes, square roots,
a zero guard, then the quotient. -/
noncomputable def calculateCosineSimilarity (vec1 vec2 : List ℝ) : ℝ :=
  if vec1.length ≠ vec2.length then 0
  else
    let sums := (vec1.zip vec2).foldl
      (fun (acc : ℝ × ℝ × ℝ) p =>
        (acc.1 + p.1 * p.2, acc.2.1 + p.1 * p.1, acc.2.2 + p.2 * p.2))
      (0, 0, 0)
    if Real.sqrt sums.2.1 = 0 ∨ Real.sqrt sums.2.2 = 0 then 0
    else sums.1 / (Real.sqrt sums.2.1 * Real.sqrt sums.2.2)

/-- A row of the `resumes` table, restricted to the fields the match handler
reads.  `embedding` is the parsed vector (`null` = `none`; the handler's
`JSON.parse` re-parsing of string-encoded vectors is not modelled). -/
structure Resume where
  id : String
  candidate_name : Option String
  file_name : Option String
  resume_text : Option (List Char)
  embedding : Option (List ℝ)
  status : String

/-- A row of the `jobs` table, restricted to the fields the match handler reads. -/
structure Job where
  id : String
  description_text : Option (List Char)
  embedding : Option (List ℝ)

/-- A row upserted into the `matches` table.  `match_details.processed_at`
(a wall-clock timestamp) is not modelled; the threshold stored inside
`match_details` is kept as `details_threshold`. -/
structure MatchRecord where
  job_id : String
  resume_id : String
  similarity_score : ℝ
  is_match : Bool
  details_threshold : ℝ

/-- An element of the `matches` array returned by the handler. -/
structure MatchEntry where
  resume_id : String
  candidate_name : Option String
  file_name : Option String
  similarity_score : ℝ

/-- Everything one iteration of the per-resume loop emits: an optional
embedding-cache write to the `resumes` table, an optional upsert into the
`matches` table, and an optional entry pushed onto the `matches` array. -/
structure StepResult where
  embedUpdate : Option (String × List ℝ)
  upsert : Option MatchRecord
  matchEntry : Option MatchEntry

/-- JavaScript truthiness of `resume.resume_text` (`null` and the empty
string are falsy). -/
def textFalsy : Option (List Char) → Bool
  | none => true
  | some t => t.isEmpty

/-- One iteration of the `for (const resume of resumes)` loop of the match
handler: skip guard, lazy embedding computation with write-through cache,
similarity scoring, upsert, and match-array push. -/
noncomputable def processResume (model : List Char → Except String (List ℝ))
    (jobId : String) (jobEmbedding : Option (List ℝ)) (threshold : ℝ)
    (resume : Resume) : StepResult :=
  if textFalsy resume.resume_text ∧ resume.status ≠ "completed" then
    ⟨none, none, none⟩
  else
    let generated : Option (List ℝ) :=
      match resume.embedding, resume.resume_text with
      | none, some t => if t.isEmpty then none else some (generateEmbedding model t)
      | _, _ => none
    let resumeEmbedding : Option (List ℝ) :=
      match resume.embedding with
      | none => generated
      | some e => some e
    match jobEmbedding, resumeEmbedding with
    | some jobE, some resumeE =>
      let similarity := calculateCosineSimilarity jobE resumeE
      let isMatch : Bool := decide (similarity ≥ threshold)
      { embedUpdate := generated.map (fun e => (resume.id, e)),
        upsert := some ⟨jobId, resume.id, similarity, isMatch, threshold⟩,
        matchEntry :=
          if isMatch then
            some ⟨resume.id, resume.candidate_name, resume.file_name, similarity⟩
          else none }
    | _, _ => { embedUpdate := generated.map (fun e => (resume.id, e)),
                upsert := none, matchEntry := none }

/-- `let jobEmbedding = job.embedding; if (!jobEmbedding && job.description_text)
jobEmbedding = await generateEmbedding(...)`. -/
noncomputable def effectiveJobEmbedding (model : List Char → Except String (List ℝ))
    (job : Job) : Option (List ℝ) :=
  match job.embedding, job.description_text with
  | none, some t => if t.isEmpty then none else some (generateEmbedding model t)
  | e, _ => e

/-- The JSON body of a successful match-handler response, together with the
store writes the run performed. -/
structure RunResult where
  total_resumes : Nat
  matched_resumes : Nat
  threshold : ℝ
  matchesList : List MatchEntry
  upserts : List MatchRecord
  embedUpdates : List (String × List ℝ)

/-- The comparator of `matches.sort((a, b) => b.similarity_score - a.similarity_score)`,
as the "may come first" relation of a stable sort: descending by score, ties
keeping their original relative order. -/
noncomputable def matchOrder (a b : MatchEntry) : Bool :=
  decide (b.similarity_score ≤ a.similarity_score)

/-- The whole match run for one job (after the job row has been loaded):
job-embedding cache fill, the per-resume loop, the stable descending sort,
and the response summary. -/
noncomputable def runMatches (model : List Char → Except String (List ℝ))
    (job : Job) (resumes : List Resume) (threshold : ℝ) : RunResult :=
  let jobEmbedding := effectiveJobEmbedding model job
  let steps := resumes.map (processResume model job.id jobEmbedding threshold)
  let sorted := (steps.filterMap StepResult.matchEntry).mergeSort matchOrder
  { total_resumes := resumes.length,
    matched_resumes := sorted.length,
    threshold := threshold,
    matchesList := sorted,
    upserts := steps.filterMap StepResult.upsert,
    embedUpdates := steps.filterMap StepResult.embedUpdate }

mutual

/-- Replace every maximal run of characters satisfying `p` by the single
character `repl` (the shape of `replace(/X+/g, Y)`). -/
def replaceRuns (p : Char → Bool) (repl : Char) : List Char → List Char
  | [] => []
  | c :: rest =>
    if p c then repl :: replaceRunsSkip p repl rest
    else c :: replaceRuns p repl rest

/-- `replaceRuns`, inside a run whose replacement was already emitted. -/
def replaceRunsSkip (p : Char → Bool) (repl : Char) : List Char → List Char
  | [] => []
  | c :: rest =>
    if p c then replaceRunsSkip p repl rest
    else c :: replaceRuns p repl rest

end

/-- `cleanText` from the parse-document handler: blank out characters outside
printable ASCII and whitespace, collapse whitespace runs, collapse newline
runs (a no-op after the previous step, kept for faithfulness), trim. -/
def cleanText (text : List Char) : List Char :=
  let step1 := text.map (fun c =>
    if (0x20 ≤ c.toNat ∧ c.toNat ≤ 0x7e) ∨ isJsWhitespace c then c else ' ')
  let step2 := replaceRuns isJsWhitespace ' ' step1
  let step3 := replaceRuns (fun c => c == '\n') ' ' step2
  ((step3.dropWhile isJsWhitespace).reverse.dropWhile isJsWhitespace).reverse

/-- The `.update({...})` the parse-document handler issues against the
`jobs`/`resumes` table (`updated_at` wall-clock timestamp not modelled). -/
structure DocUpdate where
  table : String
  document_id : String
  update_field : String
  text_value : List Char
  status : String

/-- The JSON body the parse-document handler responds with. -/
structure ParseResponse where
  success : Bool
  text : Option (List Char)
  error : Option String

/-- The parse-document handler: dispatch on the declared file type, extract
text (the external PDF/DOCX parsers are oracles; the fetched body is the
decoded buffer), clean it, then write it back with status `completed`.
An unrecognized type throws, which the catch-all turns into
`{success: false, error}` before any store write happens. -/
def parseDocumentHandler (parsePDF parseDOCX : List Char → List Char)
    (fileType : String) (buffer : List Char)
    (documentId : String) (documentType : String) :
    ParseResponse × List DocUpdate :=
  let extracted : Option (List Char) :=
    if fileType = "txt" ∨ fileType = "text/plain" then some buffer
    else if fileType = "pdf" ∨ fileType = "application/pdf" then some (parsePDF buffer)
    else if fileType = "docx" ∨
        fileType = "application/vnd.openxmlformats-officedocument.wordprocessingml.document" then
      some (parseDOCX buffer)
    else if fileType = "doc" ∨ fileType = "application/msword" then
      some ("Legacy DOC format - please convert to DOCX or PDF".toList)
    else none
  match extracted with
  | none =>
    ({ success := false, text := none,
       error := some ("Unsupported file type: " ++ fileType) }, [])
  | some extractedText =>
    let cleanedText := cleanText extractedText
    ({ success := true, text := some cleanedText, error := none },
     [{ table := if documentType = "job" then "jobs" else "resumes",
        document_id := documentId,
        update_field := if documentType = "job" then "description_text" else "resume_text",
        text_value := cleanedText,
        status := "completed" }])

/-- Spec phrasing: the Euclidean magnitude of a vector. -/
noncomputable def euclideanMagnitude (v : List ℝ) : ℝ :=
  Real.sqrt ((v.map (fun x => x * x)).sum)

/-- Spec phrasing: the dot product of two vectors. -/
def dotProduct (v1 v2 : List ℝ) : ℝ :=
  (List.zipWith (fun x y => x * y) v1 v2).sum

/-- Modelled from the spec's reference description of the fallback algorithm:
the value accumulated in slot `k` is the sum, over every word at index `i`
(`i` bounded by the vector length 384) and every character at index `j`
within that word, of `charCode / 1000` whenever `(i + j) mod 384 = k`. -/
def specAccumVal (words : List (List Char)) (k : Nat) : ℚ :=
  (((words.take 384).enum).map (fun p =>
    (p.2.enum.map (fun q =>
      if (p.1 + q.1) % 384 = k then (q.2.toNat : ℚ) / 1000 else 0)).sum)).sum

/-- Modelled from the spec's reference description of the fallback embedding
(split on whitespace, accumulate `charCode / 1000` into slot `(i + j) mod 384`,
then divide by the Euclidean magnitude, leaving all components 0 when the
magnitude is 0) — note: no lowercasing step. -/
noncomputable def specReferenceEmbedding (text : List Char) : List ℝ :=
  normalizeEmbedding ((List.range 384).map (specAccumVal (splitWs text)))

/-! ### Basic lemmas about the accumulation loops -/

theorem addChars_length (w : List Char) : ∀ (emb : List ℚ) (i j : Nat),
    (addChars emb i j w).length = emb.length := by
  induction w with
  | nil => intro emb i j; rfl
  | cons c cs ih =>
    intro emb i j
    rw [addChars, ih, List.length_set]

theorem loopWords_length (ws : List (List Char)) : ∀ (emb : List ℚ) (i : Nat),
    (loopWords emb i ws).length = emb.length := by
  induction ws with
  | nil => intro emb i; rfl
  | cons w t ih =>
    intro emb i
    rw [loopWords]
    by_cases h : i < emb.length
    · rw [if_pos h, ih, addChars_length]
    · rw [if_neg h]

theorem addChars_getD (w : List Char) : ∀ (emb : List ℚ) (i j k : Nat),
    k < emb.length →
    (addChars emb i j w).getD k 0 =
      emb.getD k 0 +
        ((w.enumFrom j).map (fun q =>
          if (i + q.1) % emb.length = k then (q.2.toNat : ℚ) / 1000 else 0)).sum := by
  induction w with
  | nil => intro emb i j k hk; simp [addChars]
  | cons c cs ih =>
    intro emb i j k hk
    rw [addChars]
    have hlen : (emb.set ((i + j) % emb.length)
        (emb.getD ((i + j) % emb.length) 0 + (c.toNat : ℚ) / 1000)).length = emb.length :=
      List.length_set ..
    have hk' : k < (emb.set ((i + j) % emb.length)
        (emb.getD ((i + j) % emb.length) 0 + (c.toNat : ℚ) / 1000)).length := by
      rw [hlen]; exact hk
    rw [ih _ i (j + 1) k hk']
    simp only [hlen, List.enumFrom_cons, List.map_cons, List.sum_cons]
    by_cases hik : (i + j) % emb.length = k
    · subst hik
      rw [if_pos rfl, List.getD_eq_getElem _ _ hk', List.getElem_set_self hk',
        List.getD_eq_getElem _ _ hk]
      ring
    · rw [if_neg hik, List.getD_eq_getElem _ _ hk', List.getElem_set_ne hik,
        List.getD_eq_getElem _ _ hk]
      ring

theorem loopWords_getD (ws : List (List Char)) : ∀ (emb : List ℚ) (i k : Nat),
    k < emb.length →
    (loopWords emb i ws).getD k 0 =
      emb.getD k 0 +
        (((ws.take (emb.length - i)).enumFrom i).map (fun p =>
          (p.2.enum.map (fun q =>
            if (p.1 + q.1) % emb.length = k then (q.2.toNat : ℚ) / 1000 else 0)).sum)).sum := by
  induction ws with
  | nil => intro emb i k hk; simp [loopWords]
  | cons w t ih =>
    intro emb i k hk
    rw [loopWords]
    by_cases h : i < emb.length
    · rw [if_pos h]
      have hlen := addChars_length w emb i 0
      have hk2 : k < (addChars emb i 0 w).length := by rw [hlen]; exact hk
      rw [ih _ (i + 1) k hk2, addChars_getD w emb i 0 k hk]
      simp only [hlen]
      have hsub : emb.length - i = (emb.length - (i + 1)) + 1 := by omega
      rw [hsub, List.take_succ_cons, List.enumFrom_cons, List.map_cons, List.sum_cons,
        add_assoc]
      rfl
    · rw [if_neg h]
      have hz : emb.length - i = 0 := by omega
      simp [hz]

theorem fallbackAccum_getD (text : List Char) (k : Nat) (hk : k < 384) :
    (fallbackAccum text).getD k 0 = specAccumVal (splitWs (text.map jsToLower)) k := by
  have hk' : k < (List.replicate 384 (0 : ℚ)).length := by
    rw [List.length_replicate]; exact hk
  rw [fallbackAccum, specAccumVal, loopWords_getD _ _ _ _ hk']
  rw [List.getD_eq_getElem _ _ hk', List.getElem_replicate]
  simp only [List.length_replicate, Nat.sub_zero, List.enum, zero_add]

theorem fallbackAccum_length (text : List Char) : (fallbackAccum text).length = 384 := by
  rw [fallbackAccum, loopWords_length, List.length_replicate]

theorem fallbackAccum_eq_specAccum (text : List Char) :
    fallbackAccum text =
      (List.range 384).map (specAccumVal (splitWs (text.map jsToLower))) := by
  apply List.ext_getElem
  · rw [fallbackAccum_length, List.length_map, List.length_range]
  · intro n h1 h2
    have hn : n < 384 := by
      have := fallbackAccum_length text
      omega
    rw [List.getElem_map, List.getElem_range, ← List.getD_eq_getElem _ _ h1,
      fallbackAccum_getD text n hn]

/-! ### The sum-of-squares reduce and the normalization phase -/

theorem foldl_add_sq (l : List ℚ) : ∀ a : ℚ,
    l.foldl (fun sum val => sum + val * val) a = a + (l.map (fun x => x * x)).sum := by
  induction l with
  | nil => intro a; simp
  | cons x t ih =>
    intro a
    rw [List.foldl_cons, ih, List.map_cons, List.sum_cons, add_assoc]

theorem sumSqQ_eq_sum_map (l : List ℚ) : sumSqQ l = (l.map (fun x => x * x)).sum := by
  rw [sumSqQ, foldl_add_sq, zero_add]

theorem sumSqQ_nonneg (l : List ℚ) : 0 ≤ sumSqQ l := by
  rw [sumSqQ_eq_sum_map]
  apply List.sum_nonneg
  intro x hx
  obtain ⟨y, _, rfl⟩ := List.mem_map.1 hx
  exact mul_self_nonneg y

theorem sumSqQ_pos_of_mem {l : List ℚ} {x : ℚ} (hx : x ∈ l) (hx0 : x ≠ 0) :
    0 < sumSqQ l := by
  rw [sumSqQ_eq_sum_map]
  have hle : x * x ≤ (l.map (fun x => x * x)).sum := by
    apply List.single_le_sum
    · intro y hy
      obtain ⟨z, _, rfl⟩ := List.mem_map.1 hy
      exact mul_self_nonneg z
    · exact List.mem_map_of_mem _ hx
  have hpos : 0 < x * x := mul_self_pos.mpr hx0
  linarith

theorem sumSqQ_eq_zero_of_all_zero {l : List ℚ} (h : ∀ x ∈ l, x = 0) :
    sumSqQ l = 0 := by
  rw [sumSqQ_eq_sum_map]
  apply List.sum_eq_zero
  intro y hy
  obtain ⟨z, hz, rfl⟩ := List.mem_map.1 hy
  rw [h z hz, mul_zero]

theorem normalizeEmbedding_length (emb : List ℚ) :
    (normalizeEmbedding emb).length = emb.length :=
  List.length_map ..

theorem cast_sumSqQ (emb : List ℚ) :
    (emb.map (fun (q : ℚ) => ((q : ℝ) * (q : ℝ)))).sum = ((sumSqQ emb : ℚ) : ℝ) := by
  rw [sumSqQ_eq_sum_map]
  induction emb with
  | nil => simp
  | cons x t ih =>
    simp only [List.map_cons, List.sum_cons, Rat.cast_add, Rat.cast_mul, ih]

theorem normalizeEmbedding_norm (emb : List ℚ) (h : 0 < sumSqQ emb) :
    euclideanMagnitude (normalizeEmbedding emb) = 1 := by
  have hS : (0 : ℝ) < ((sumSqQ emb : ℚ) : ℝ) := by exact_mod_cast h
  have hm : 0 < Real.sqrt ((sumSqQ emb : ℚ) : ℝ) := Real.sqrt_pos.mpr hS
  rw [euclideanMagnitude, normalizeEmbedding]
  simp only [if_pos hm, List.map_map]
  have hmap : (emb.map ((fun x => x * x) ∘ fun (val : ℚ) =>
      (val : ℝ) / Real.sqrt ((sumSqQ emb : ℚ) : ℝ))).sum
      = (emb.map (fun (q : ℚ) => ((q : ℝ) * (q : ℝ)) *
          (Real.sqrt ((sumSqQ emb : ℚ) : ℝ) * Real.sqrt ((sumSqQ emb : ℚ) : ℝ))⁻¹)).sum := by
    have hfun : ((fun x => x * x) ∘ fun (val : ℚ) =>
        (val : ℝ) / Real.sqrt ((sumSqQ emb : ℚ) : ℝ))
        = fun (q : ℚ) => ((q : ℝ) * (q : ℝ)) *
          (Real.sqrt ((sumSqQ emb : ℚ) : ℝ) * Real.sqrt ((sumSqQ emb : ℚ) : ℝ))⁻¹ := by
      funext q
      simp only [Function.comp]
      rw [div_mul_div_comm, div_eq_mul_inv]
    rw [hfun]
  rw [hmap, List.sum_map_mul_right, cast_sumSqQ,
    Real.mul_self_sqrt hS.le, mul_inv_cancel₀ (ne_of_gt hS), Real.sqrt_one]

theorem normalizeEmbedding_zero (emb : List ℚ) (h : sumSqQ emb = 0) :
    normalizeEmbedding emb = List.replicate emb.length 0 := by
  have hm : Real.sqrt ((sumSqQ emb : ℚ) : ℝ) = 0 := by
    rw [h]
    simp
  rw [normalizeEmbedding]
  simp only [hm, lt_self_iff_false, if_false]
  exact List.map_const' ..

theorem getD_map_of_lt (f : ℚ → ℝ) (l : List ℚ) (k : Nat) (hk : k < l.length) :
    (l.map f).getD k 0 = f (l.getD k 0) := by
  have hk2 : k < (l.map f).length := by
    rw [List.length_map]; exact hk
  rw [List.getD_eq_getElem _ _ hk2, List.getElem_map, List.getD_eq_getElem _ _ hk]

theorem getD_range_map (f : Nat → ℚ) (n k : Nat) (hk : k < n) :
    ((List.range n).map f).getD k 0 = f k := by
  have hk2 : k < ((List.range n).map f).length := by
    rw [List.length_map, List.length_range]; exact hk
  rw [List.getD_eq_getElem _ _ hk2, List.getElem_map, List.getElem_range]

theorem normalizeEmbedding_getD (emb : List ℚ) (k : Nat) (hk : k < emb.length) :
    (normalizeEmbedding emb).getD k 0 =
      if 0 < Real.sqrt ((sumSqQ emb : ℚ) : ℝ)
      then ((emb.getD k 0 : ℚ) : ℝ) / Real.sqrt ((sumSqQ emb : ℚ) : ℝ) else 0 := by
  unfold normalizeEmbedding
  rw [getD_map_of_lt _ _ _ hk]

theorem sumSqQ_pos_of_getD (l : List ℚ) (k : Nat) (hk : k < l.length)
    (h0 : l.getD k 0 ≠ 0) : 0 < sumSqQ l := by
  have hmem : l.getD k 0 ∈ l := by
    rw [List.getD_eq_getElem _ _ hk]
    exact List.getElem_mem hk
  exact sumSqQ_pos_of_mem hmem h0

/-- C3 (amended): `generateFallbackEmbedding` computes exactly the spec's
reference algorithm applied to the lowercased text: accumulate
`charCode / 1000` into slot `(i + j) mod 384` over the whitespace-split
words, then normalize by the Euclidean magnitude (all zero when the
magnitude is 0). -/
theorem fallback_embedding_eq_spec_after_lowercase (text : List Char) :
    generateFallbackEmbedding text = specReferenceEmbedding (text.map jsToLower) := by
  unfold generateFallbackEmbedding specReferenceEmbedding
  rw [fallbackAccum_eq_specAccum]

/-- C3 counterexample: on the input "AB" the function's output differs from
the spec's reference algorithm applied to the text as written (the code
lowercases first, so it hashes `'a','b'` where the spec hashes `'A','B'`,
and the normalized vectors point in different directions). -/
theorem fallback_embedding_differs_from_spec :
    generateFallbackEmbedding ['A', 'B'] ≠ specReferenceEmbedding ['A', 'B'] := by
  intro heq
  have hsplitC : splitWs (['A', 'B'].map jsToLower) = [['a', 'b']] := by decide
  have hsplitS : splitWs ['A', 'B'] = [['A', 'B']] := by decide
  have haC0 : (fallbackAccum ['A', 'B']).getD 0 0 = 97 / 1000 := by
    rw [fallbackAccum_getD _ 0 (by norm_num), hsplitC, specAccumVal,
      List.take_of_length_le (by norm_num)]
    simp [List.enum, show 'a'.toNat = 97 from rfl, show 'b'.toNat = 98 from rfl]
  have haC1 : (fallbackAccum ['A', 'B']).getD 1 0 = 98 / 1000 := by
    rw [fallbackAccum_getD _ 1 (by norm_num), hsplitC, specAccumVal,
      List.take_of_length_le (by norm_num)]
    simp [List.enum, show 'a'.toNat = 97 from rfl, show 'b'.toNat = 98 from rfl]
  have haS0 : ((List.range 384).map (specAccumVal (splitWs ['A', 'B']))).getD 0 0
      = 65 / 1000 := by
    rw [getD_range_map _ _ _ (by norm_num), hsplitS, specAccumVal,
      List.take_of_length_le (by norm_num)]
    simp [List.enum, show 'A'.toNat = 65 from rfl, show 'B'.toNat = 66 from rfl]
  have haS1 : ((List.range 384).map (specAccumVal (splitWs ['A', 'B']))).getD 1 0
      = 66 / 1000 := by
    rw [getD_range_map _ _ _ (by norm_num), hsplitS, specAccumVal,
      List.take_of_length_le (by norm_num)]
    simp [List.enum, show 'A'.toNat = 65 from rfl, show 'B'.toNat = 66 from rfl]
  have hlenC : (fallbackAccum ['A', 'B']).length = 384 := fallbackAccum_length _
  have hlenS : ((List.range 384).map (specAccumVal (splitWs ['A', 'B']))).length
      = 384 := by
    rw [List.length_map, List.length_range]
  have hposC : 0 < sumSqQ (fallbackAccum ['A', 'B']) :=
    sumSqQ_pos_of_getD _ 0 (by rw [hlenC]; norm_num) (by rw [haC0]; norm_num)
  have hposS : 0 < sumSqQ ((List.range 384).map (specAccumVal (splitWs ['A', 'B']))) :=
    sumSqQ_pos_of_getD _ 0 (by rw [hlenS]; norm_num) (by rw [haS0]; norm_num)
  have hmC : 0 < Real.sqrt ((sumSqQ (fallbackAccum ['A', 'B']) : ℚ) : ℝ) :=
    Real.sqrt_pos.mpr (by exact_mod_cast hposC)
  have hmS : 0 < Real.sqrt
      ((sumSqQ ((List.range 384).map (specAccumVal (splitWs ['A', 'B']))) : ℚ) : ℝ) :=
    Real.sqrt_pos.mpr (by exact_mod_cast hposS)
  unfold generateFallbackEmbedding specReferenceEmbedding at heq
  have h0 := congrArg (fun l => l.getD 0 0) heq
  have h1 := congrArg (fun l => l.getD 1 0) heq
  simp only at h0 h1
  rw [normalizeEmbedding_getD (fallbackAccum ['A', 'B']) 0 (by rw [hlenC]; norm_num),
    normalizeEmbedding_getD ((List.range 384).map (specAccumVal (splitWs ['A', 'B']))) 0
      (by rw [hlenS]; norm_num),
    if_pos hmC, if_pos hmS, haC0, haS0] at h0
  rw [normalizeEmbedding_getD (fallbackAccum ['A', 'B']) 1 (by rw [hlenC]; norm_num),
    normalizeEmbedding_getD ((List.range 384).map (specAccumVal (splitWs ['A', 'B']))) 1
      (by rw [hlenS]; norm_num),
    if_pos hmC, if_pos hmS, haC1, haS1] at h1
  push_cast at h0 h1
  rw [div_eq_div_iff hmC.ne' hmS.ne'] at h0 h1
  nlinarith [h0, h1, hmS, hmC]

/-- C10: the fallback embedding is case-insensitive — texts that agree after
ASCII lowercasing (in particular, texts differing only in ASCII letter case)
yield identical output vectors. -/
theorem fallback_embedding_case_insensitive (t1 t2 : List Char)
    (h : t1.map jsToLower = t2.map jsToLower) :
    generateFallbackEmbedding t1 = generateFallbackEmbedding t2 := by
  unfold generateFallbackEmbedding fallbackAccum
  rw [h]

/-- C10 witness: "Ab" and "aB" differ only in ASCII letter case and get the
same fallback embedding. -/
theorem fallback_embedding_case_insensitive_witness :
    generateFallbackEmbedding ['A', 'b'] = generateFallbackEmbedding ['a', 'B'] :=
  fallback_embedding_case_insensitive _ _ (by decide)

/-- C7: the fallback embedding always has exactly 384 components and is
unit-normalized (Euclidean norm 1), except when every accumulated component
is 0, in which case it is the zero vector. -/
theorem fallback_embedding_unit_norm (text : List Char) :
    (generateFallbackEmbedding text).length = 384 ∧
    ((∃ x ∈ fallbackAccum text, x ≠ 0) →
      euclideanMagnitude (generateFallbackEmbedding text) = 1) ∧
    ((∀ x ∈ fallbackAccum text, x = 0) →
      generateFallbackEmbedding text = List.replicate 384 0) := by
  refine ⟨?_, ?_, ?_⟩
  · rw [generateFallbackEmbedding, normalizeEmbedding_length, fallbackAccum_length]
  · rintro ⟨x, hx, hx0⟩
    rw [generateFallbackEmbedding]
    exact normalizeEmbedding_norm _ (sumSqQ_pos_of_mem hx hx0)
  · intro h
    rw [generateFallbackEmbedding,
      normalizeEmbedding_zero _ (sumSqQ_eq_zero_of_all_zero h), fallbackAccum_length]

/-- C7 witness: on the input "a" some accumulated component is nonzero and
the output has norm 1 (and 384 components). -/
theorem fallback_embedding_unit_norm_witness :
    (generateFallbackEmbedding ['a']).length = 384 ∧
    euclideanMagnitude (generateFallbackEmbedding ['a']) = 1 := by
  have h0 : (fallbackAccum ['a']).getD 0 0 = 97 / 1000 := by
    have hs : splitWs (['a'].map jsToLower) = [['a']] := by decide
    rw [fallbackAccum_getD _ 0 (by norm_num), hs, specAccumVal,
      List.take_of_length_le (by norm_num)]
    simp [List.enum, show 'a'.toNat = 97 from rfl]
  have hmem : (97 : ℚ) / 1000 ∈ fallbackAccum ['a'] := by
    rw [← h0, List.getD_eq_getElem _ _ (by rw [fallbackAccum_length]; norm_num)]
    exact List.getElem_mem _
  exact ⟨(fallback_embedding_unit_norm ['a']).1,
    (fallback_embedding_unit_norm ['a']).2.1 ⟨97 / 1000, hmem, by norm_num⟩⟩

/-! ### The cosine similarity loop -/

theorem foldl_triple (l : List (ℝ × ℝ)) : ∀ (a b c : ℝ),
    l.foldl (fun (acc : ℝ × ℝ × ℝ) p =>
      (acc.1 + p.1 * p.2, acc.2.1 + p.1 * p.1, acc.2.2 + p.2 * p.2)) (a, b, c) =
    (a + (l.map (fun p => p.1 * p.2)).sum,
     b + (l.map (fun p => p.1 * p.1)).sum,
     c + (l.map (fun p => p.2 * p.2)).sum) := by
  induction l with
  | nil => intro a b c; simp
  | cons x t ih =>
    intro a b c
    rw [List.foldl_cons, ih]
    simp only [List.map_cons, List.sum_cons, Prod.mk.injEq]
    refine ⟨by ring, by ring, by ring⟩

theorem zip_map_mul_sum (v1 : List ℝ) : ∀ v2 : List ℝ,
    ((v1.zip v2).map (fun p => p.1 * p.2)).sum = dotProduct v1 v2 := by
  induction v1 with
  | nil => intro v2; simp [dotProduct]
  | cons x t ih =>
    intro v2
    cases v2 with
    | nil => simp [dotProduct]
    | cons y u =>
      simp only [List.zip_cons_cons, List.map_cons, List.sum_cons, dotProduct,
        List.zipWith_cons_cons] at *
      rw [ih u]

theorem zip_map_fst_sq_sum (v1 : List ℝ) : ∀ v2 : List ℝ,
    v1.length = v2.length →
    ((v1.zip v2).map (fun p => p.1 * p.1)).sum = (v1.map (fun x => x * x)).sum := by
  induction v1 with
  | nil => intro v2 h; simp
  | cons x t ih =>
    intro v2 h
    cases v2 with
    | nil => simp at h
    | cons y u =>
      simp only [List.zip_cons_cons, List.map_cons, List.sum_cons]
      rw [ih u (by simpa using h)]

theorem zip_map_snd_sq_sum (v1 : List ℝ) : ∀ v2 : List ℝ,
    v1.length = v2.length →
    ((v1.zip v2).map (fun p => p.2 * p.2)).sum = (v2.map (fun x => x * x)).sum := by
  induction v1 with
  | nil =>
    intro v2 h
    cases v2 with
    | nil => simp
    | cons y u => simp at h
  | cons x t ih =>
    intro v2 h
    cases v2 with
    | nil => simp at h
    | cons y u =>
      simp only [List.zip_cons_cons, List.map_cons, List.sum_cons]
      rw [ih u (by simpa using h)]

theorem sum_map_mul_self_nonneg (f : ℝ × ℝ → ℝ) (l : List (ℝ × ℝ)) :
    0 ≤ (l.map (fun p => f p * f p)).sum := by
  apply List.sum_nonneg
  intro x hx
  obtain ⟨p, _, rfl⟩ := List.mem_map.1 hx
  exact mul_self_nonneg (f p)

theorem list_cauchy_schwarz_sq (l : List (ℝ × ℝ)) :
    ((l.map (fun p => p.1 * p.2)).sum) ^ 2 ≤
      ((l.map (fun p => p.1 * p.1)).sum) * ((l.map (fun p => p.2 * p.2)).sum) := by
  induction l with
  | nil => simp
  | cons x t ih =>
    simp only [List.map_cons, List.sum_cons]
    have hA : 0 ≤ (t.map (fun p => p.1 * p.1)).sum :=
      sum_map_mul_self_nonneg Prod.fst t
    have hB : 0 ≤ (t.map (fun p => p.2 * p.2)).sum :=
      sum_map_mul_self_nonneg Prod.snd t
    rcases eq_or_lt_of_le hB with hB0 | hBpos
    · have hD : (t.map (fun p => p.1 * p.2)).sum = 0 := by
        nlinarith [sq_nonneg ((t.map (fun p => p.1 * p.2)).sum)]
      rw [hD, ← hB0]
      nlinarith [mul_nonneg hA (sq_nonneg x.2)]
    · nlinarith [sq_nonneg (x.1 * (t.map (fun p => p.2 * p.2)).sum
          - x.2 * (t.map (fun p => p.1 * p.2)).sum),
        mul_nonneg (sq_nonneg x.2) (sub_nonneg.mpr ih),
        mul_nonneg hB (sub_nonneg.mpr ih), hBpos]

theorem sum_map_sq_nonneg (l : List ℝ) : 0 ≤ (l.map (fun x => x * x)).sum := by
  apply List.sum_nonneg
  intro x hx
  obtain ⟨y, _, rfl⟩ := List.mem_map.1 hx
  exact mul_self_nonneg y

theorem cosine_eq_of_length_eq (v1 v2 : List ℝ) (h : v1.length = v2.length) :
    calculateCosineSimilarity v1 v2 =
      if euclideanMagnitude v1 = 0 ∨ euclideanMagnitude v2 = 0 then 0
      else dotProduct v1 v2 / (euclideanMagnitude v1 * euclideanMagnitude v2) := by
  simp only [calculateCosineSimilarity, if_neg (not_not_intro h), foldl_triple, zero_add,
    euclideanMagnitude]
  rw [zip_map_mul_sum, zip_map_fst_sq_sum _ _ h, zip_map_snd_sq_sum _ _ h]

/-- C4: `calculateCosineSimilarity` returns exactly 0 when the vectors
differ in length, exactly 0 when either vector has Euclidean magnitude 0,
and otherwise the dot product divided by the product of the two Euclidean
magnitudes. -/
theorem cosine_similarity_spec (v1 v2 : List ℝ) :
    (v1.length ≠ v2.length → calculateCosineSimilarity v1 v2 = 0) ∧
    ((euclideanMagnitude v1 = 0 ∨ euclideanMagnitude v2 = 0) →
      calculateCosineSimilarity v1 v2 = 0) ∧
    (v1.length = v2.length → euclideanMagnitude v1 ≠ 0 → euclideanMagnitude v2 ≠ 0 →
      calculateCosineSimilarity v1 v2 =
        dotProduct v1 v2 / (euclideanMagnitude v1 * euclideanMagnitude v2)) := by
  refine ⟨?_, ?_, ?_⟩
  · intro h
    simp only [calculateCosineSimilarity, if_pos h]
  · intro h
    by_cases hlen : v1.length = v2.length
    · rw [cosine_eq_of_length_eq _ _ hlen, if_pos h]
    · simp only [calculateCosineSimilarity, if_pos hlen]
  · intro hlen h1 h2
    rw [cosine_eq_of_length_eq _ _ hlen, if_neg (by tauto)]

/-- C4 witness: length mismatch gives 0; a zero vector gives 0; two nonzero
vectors of equal length give the dot product over the magnitude product. -/
theorem cosine_similarity_spec_witness :
    calculateCosineSimilarity [(1 : ℝ)] [1, 0] = 0 ∧
    calculateCosineSimilarity [(0 : ℝ), 0] [3, 4] = 0 ∧
    calculateCosineSimilarity [(1 : ℝ)] [1] =
      dotProduct [(1 : ℝ)] [1] / (euclideanMagnitude [(1 : ℝ)] * euclideanMagnitude [(1 : ℝ)]) := by
  have hmag1 : euclideanMagnitude [(1 : ℝ)] = 1 := by
    rw [euclideanMagnitude]
    norm_num
  have hmag0 : euclideanMagnitude [(0 : ℝ), 0] = 0 := by
    rw [euclideanMagnitude]
    norm_num
  exact ⟨(cosine_similarity_spec [(1 : ℝ)] [1, 0]).1 (by norm_num),
    (cosine_similarity_spec [(0 : ℝ), 0] [3, 4]).2.1 (Or.inl hmag0),
    (cosine_similarity_spec [(1 : ℝ)] [1]).2.2 rfl (by rw [hmag1]; norm_num)
      (by rw [hmag1]; norm_num)⟩

theorem dotProduct_sq_le (v1 v2 : List ℝ) (h : v1.length = v2.length) :
    dotProduct v1 v2 ^ 2 ≤
      (v1.map (fun x => x * x)).sum * (v2.map (fun x => x * x)).sum := by
  rw [← zip_map_mul_sum, ← zip_map_fst_sq_sum _ _ h, ← zip_map_snd_sq_sum _ _ h]
  exact list_cauchy_schwarz_sq (v1.zip v2)

theorem dotProduct_nonneg (v1 v2 : List ℝ)
    (h1 : ∀ x ∈ v1, 0 ≤ x) (h2 : ∀ x ∈ v2, 0 ≤ x) : 0 ≤ dotProduct v1 v2 := by
  rw [← zip_map_mul_sum]
  apply List.sum_nonneg
  intro z hz
  obtain ⟨p, hp, rfl⟩ := List.mem_map.1 hz
  obtain ⟨hp1, hp2⟩ := List.of_mem_zip (a := p.1) (b := p.2) (by simpa using hp)
  exact mul_nonneg (h1 _ hp1) (h2 _ hp2)

/-- C1 (amended): every similarity computed by `calculateCosineSimilarity`
(and hence every `similarity_score` stored by the match run) lies in
[-1, 1]; it lies in [0, 1] whenever both vectors are componentwise
nonnegative, as every fallback embedding is — but cached or model-produced
vectors with negative components can be scored, so [0, 1] does not hold
unconditionally. -/
theorem similarity_bounded (v1 v2 : List ℝ) :
    (-1 ≤ calculateCosineSimilarity v1 v2 ∧ calculateCosineSimilarity v1 v2 ≤ 1) ∧
    ((∀ x ∈ v1, 0 ≤ x) → (∀ x ∈ v2, 0 ≤ x) →
      0 ≤ calculateCosineSimilarity v1 v2) := by
  by_cases hlen : v1.length = v2.length
  · rw [cosine_eq_of_length_eq _ _ hlen]
    by_cases hz : euclideanMagnitude v1 = 0 ∨ euclideanMagnitude v2 = 0
    · rw [if_pos hz]
      norm_num
    · rw [if_neg hz]
      push_neg at hz
      have hm1 : 0 < euclideanMagnitude v1 :=
        lt_of_le_of_ne (Real.sqrt_nonneg _) (Ne.symm hz.1)
      have hm2 : 0 < euclideanMagnitude v2 :=
        lt_of_le_of_ne (Real.sqrt_nonneg _) (Ne.symm hz.2)
      have hmm : 0 < euclideanMagnitude v1 * euclideanMagnitude v2 := mul_pos hm1 hm2
      have hsq : dotProduct v1 v2 ^ 2 ≤
          (euclideanMagnitude v1 * euclideanMagnitude v2) ^ 2 := by
        have h1 : euclideanMagnitude v1 ^ 2 = (v1.map (fun x => x * x)).sum :=
          Real.sq_sqrt (sum_map_sq_nonneg v1)
        have h2 : euclideanMagnitude v2 ^ 2 = (v2.map (fun x => x * x)).sum :=
          Real.sq_sqrt (sum_map_sq_nonneg v2)
        calc dotProduct v1 v2 ^ 2
            ≤ (v1.map (fun x => x * x)).sum * (v2.map (fun x => x * x)).sum :=
              dotProduct_sq_le v1 v2 hlen
          _ = (euclideanMagnitude v1 * euclideanMagnitude v2) ^ 2 := by
              rw [mul_pow, h1, h2]
      have habs : |dotProduct v1 v2| ≤ euclideanMagnitude v1 * euclideanMagnitude v2 := by
        have := Real.sqrt_le_sqrt hsq
        rwa [Real.sqrt_sq_eq_abs, Real.sqrt_sq hmm.le] at this
      obtain ⟨hlow, hhigh⟩ := abs_le.1 habs
      refine ⟨⟨?_, ?_⟩, ?_⟩
      · rw [le_div_iff₀ hmm]
        linarith
      · rw [div_le_one hmm]
        linarith
      · intro h1 h2
        exact div_nonneg (dotProduct_nonneg v1 v2 h1 h2) hmm.le
  · have h0 : calculateCosineSimilarity v1 v2 = 0 :=
      (cosine_similarity_spec v1 v2).1 hlen
    rw [h0]
    norm_num

/-- C1 (amended) witness: two concrete componentwise-nonnegative vectors
give a similarity that is nonnegative (and within the [-1, 1] bounds). -/
theorem similarity_bounded_witness :
    (-1 ≤ calculateCosineSimilarity [(1 : ℝ)] [2] ∧
      calculateCosineSimilarity [(1 : ℝ)] [2] ≤ 1) ∧
    0 ≤ calculateCosineSimilarity [(1 : ℝ)] [2] :=
  ⟨(similarity_bounded [(1 : ℝ)] [2]).1,
    (similarity_bounded [(1 : ℝ)] [2]).2
      (by intro x hx; simp at hx; simp [hx])
      (by intro x hx; simp at hx; simp [hx])⟩

/-! ### Embedding fallback on primary-model failure, and the parse handler -/

/-- C8: `generateEmbedding` never raises — whenever the primary model call
errors, it returns the deterministic fallback embedding instead of
propagating the error (totality of the Lean model reflects that no
exception escapes). -/
theorem generate_embedding_falls_back (model : List Char → Except String (List ℝ))
    (text : List Char) (err : String) (h : model text = Except.error err) :
    generateEmbedding model text = generateFallbackEmbedding text := by
  simp only [generateEmbedding, h]

/-- C8 witness: a model that always errors makes `generateEmbedding` return
the fallback on "hi". -/
theorem generate_embedding_falls_back_witness :
    generateEmbedding (fun _ => Except.error "model unavailable") ['h', 'i'] =
      generateFallbackEmbedding ['h', 'i'] :=
  generate_embedding_falls_back _ ['h', 'i'] "model unavailable" rfl

/-- C9: an extraction request whose file type matches none of the
recognized types fails with an unsupported-file-type error response
(`success: false`) and performs no store update at all. -/
theorem parse_unsupported_type (parsePDF parseDOCX : List Char → List Char)
    (fileType : String) (buffer : List Char) (documentId documentType : String)
    (h : fileType ∉ ["txt", "text/plain", "pdf", "application/pdf", "docx",
      "application/vnd.openxmlformats-officedocument.wordprocessingml.document",
      "doc", "application/msword"]) :
    (parseDocumentHandler parsePDF parseDOCX fileType buffer documentId
        documentType).1.success = false ∧
    (parseDocumentHandler parsePDF parseDOCX fileType buffer documentId
        documentType).1.error = some ("Unsupported file type: " ++ fileType) ∧
    (parseDocumentHandler parsePDF parseDOCX fileType buffer documentId
        documentType).2 = [] := by
  simp only [List.mem_cons, List.not_mem_nil, or_false, not_or] at h
  obtain ⟨h1, h2, h3, h4, h5, h6, h7, h8⟩ := h
  simp only [parseDocumentHandler]
  rw [if_neg (by tauto), if_neg (by tauto), if_neg (by tauto), if_neg (by tauto)]
  exact ⟨rfl, rfl, rfl⟩

/-- C9 witness: file type "image/png" yields `{success: false, error}` and
no document update. -/
theorem parse_unsupported_type_witness :
    (parseDocumentHandler (fun _ => []) (fun _ => []) "image/png" [] "doc-1"
        "resume").1.success = false ∧
    (parseDocumentHandler (fun _ => []) (fun _ => []) "image/png" [] "doc-1"
        "resume").1.error = some ("Unsupported file type: " ++ "image/png") ∧
    (parseDocumentHandler (fun _ => []) (fun _ => []) "image/png" [] "doc-1"
        "resume").2 = [] :=
  parse_unsupported_type (fun _ => []) (fun _ => []) "image/png" [] "doc-1" "resume"
    (by decide)

/-! ### The per-resume loop of the match run -/

/-- C5: a resume with no source text whose status is not `completed` is
skipped: the loop iteration emits no embedding write, no upsert and no
match entry, and inserting such a resume anywhere in the run changes
neither the match list, nor the matched count, nor any store write. -/
theorem skipped_resume_contributes_nothing (model : List Char → Except String (List ℝ))
    (job : Job) (rs1 rs2 : List Resume) (resume : Resume) (threshold : ℝ)
    (htext : resume.resume_text = none) (hstatus : resume.status ≠ "completed") :
    processResume model job.id (effectiveJobEmbedding model job) threshold resume
        = ⟨none, none, none⟩ ∧
    (runMatches model job (rs1 ++ resume :: rs2) threshold).matchesList
      = (runMatches model job (rs1 ++ rs2) threshold).matchesList ∧
    (runMatches model job (rs1 ++ resume :: rs2) threshold).matched_resumes
      = (runMatches model job (rs1 ++ rs2) threshold).matched_resumes ∧
    (runMatches model job (rs1 ++ resume :: rs2) threshold).upserts
      = (runMatches model job (rs1 ++ rs2) threshold).upserts ∧
    (runMatches model job (rs1 ++ resume :: rs2) threshold).embedUpdates
      = (runMatches model job (rs1 ++ rs2) threshold).embedUpdates := by
  have htf : textFalsy resume.resume_text = true := by rw [htext]; rfl
  have hstep : processResume model job.id (effectiveJobEmbedding model job) threshold
      resume = ⟨none, none, none⟩ := by
    simp only [processResume]
    rw [if_pos ⟨htf, hstatus⟩]
  refine ⟨hstep, ?_, ?_, ?_, ?_⟩ <;>
    simp only [runMatches, List.map_append, List.map_cons, List.filterMap_append,
      List.filterMap_cons, hstep]

/-- C5 witness: a concrete resume with `status = "pending"` and no text is
skipped by the loop. -/
theorem skipped_resume_contributes_nothing_witness :
    processResume (fun _ => Except.error "down") "job-1"
      (effectiveJobEmbedding (fun _ => Except.error "down") ⟨"job-1", none, none⟩)
      (6 / 10) ⟨"res-1", none, none, none, none, "pending"⟩ = ⟨none, none, none⟩ :=
  (skipped_resume_contributes_nothing (fun _ => Except.error "down")
    ⟨"job-1", none, none⟩ [] [] ⟨"res-1", none, none, none, none, "pending"⟩ (6 / 10)
    rfl (by decide)).1

/-- C2 (amended): if a resume's `resume_text` is absent then no MatchRecord
is created or updated for the (job, resume) pair, unless the resume's
status is `completed` AND it already carries a cached embedding (in which
case the code does upsert a record from the cached vector). -/
theorem no_record_for_absent_text (model : List Char → Except String (List ℝ))
    (jobId : String) (jobEmbedding : Option (List ℝ)) (threshold : ℝ)
    (resume : Resume) (htext : resume.resume_text = none)
    (h : resume.status ≠ "completed" ∨ resume.embedding = none) :
    (processResume model jobId jobEmbedding threshold resume).upsert = none := by
  have htf : textFalsy resume.resume_text = true := by rw [htext]; rfl
  by_cases hs : resume.status = "completed"
  · have he : resume.embedding = none := by
      rcases h with hns | he
      · exact absurd hs hns
      · exact he
    simp only [processResume, htext, he]
    rw [if_neg (by rw [hs]; simp)]
  · simp only [processResume]
    rw [if_pos ⟨htf, hs⟩]

/-- C2 (amended) witness: a resume with no text, status "pending" and a
cached embedding produces no MatchRecord. -/
theorem no_record_for_absent_text_witness :
    (processResume (fun _ => Except.error "down") "job-1" (some [1]) (6 / 10)
      ⟨"res-1", none, none, none, some [1], "pending"⟩).upsert = none :=
  no_record_for_absent_text (fun _ => Except.error "down") "job-1" (some [1]) (6 / 10)
    ⟨"res-1", none, none, none, some [1], "pending"⟩ rfl (Or.inl (by decide))

/-- C2 counterexample: a resume whose `resume_text` is absent but whose
status is `completed` and which carries a cached embedding DOES get a
MatchRecord upserted for the (job, resume) pair, contradicting the claim
that absence of text alone prevents a record for every status and cache
state. -/
theorem record_created_despite_absent_text :
    (⟨"res-1", none, none, none, some [1], "completed"⟩ : Resume).resume_text = none ∧
    ((runMatches (fun _ => Except.error "down") ⟨"job-1", none, some [1]⟩
        [⟨"res-1", none, none, none, some [1], "completed"⟩] (6 / 10)).upserts.map
      (fun rec => (rec.job_id, rec.resume_id))) = [("job-1", "res-1")] := by
  refine ⟨rfl, ?_⟩
  simp [runMatches, processResume, effectiveJobEmbedding, textFalsy]

theorem cosine_neg_one :
    calculateCosineSimilarity [(1 : ℝ)] [-1] = -1 := by
  simp only [calculateCosineSimilarity, List.length_cons, List.length_nil, ne_eq,
    List.zip_cons_cons, List.zip_nil_right, List.foldl_cons, List.foldl_nil]
  norm_num [Real.sqrt_one]

/-- C1 counterexample: a match run scoring a cached job embedding `[1]`
against a cached resume embedding `[-1]` upserts a MatchRecord whose
`similarity_score` is `-1`, which is not in [0, 1]. -/
theorem match_run_stores_negative_score :
    ((runMatches (fun _ => Except.error "down") ⟨"job-1", none, some [1]⟩
        [⟨"res-1", none, none, none, some [-1], "completed"⟩] (6 / 10)).upserts.map
      MatchRecord.similarity_score) = [-1] ∧ ¬ ((0 : ℝ) ≤ -1) := by
  refine ⟨?_, by norm_num⟩
  simp [runMatches, processResume, effectiveJobEmbedding, textFalsy, cosine_neg_one]

/-! ### The match list: completeness, ordering, stability -/

theorem matchOrder_trans : ∀ (a b c : MatchEntry),
    matchOrder a b → matchOrder b c → matchOrder a c := by
  intro a b c hab hbc
  simp only [matchOrder, decide_eq_true_eq] at *
  exact le_trans hbc hab

theorem matchOrder_total : ∀ (a b : MatchEntry), matchOrder a b || matchOrder b a := by
  intro a b
  simp only [matchOrder]
  rcases le_total a.similarity_score b.similarity_score with h | h <;> simp [h]

theorem mergeSort_filter_score (l : List MatchEntry) (s : ℝ) :
    (l.mergeSort matchOrder).filter (fun e => decide (e.similarity_score = s)) =
      l.filter (fun e => decide (e.similarity_score = s)) := by
  have hall : ∀ a ∈ l.filter (fun e => decide (e.similarity_score = s)),
      a.similarity_score = s := by
    intro a ha
    simpa using List.of_mem_filter ha
  have hpw : (l.filter (fun e => decide (e.similarity_score = s))).Pairwise
      (fun a b => matchOrder a b = true) := by
    apply List.pairwise_of_forall_mem_list
    intro a ha b hb
    simp only [matchOrder, decide_eq_true_eq]
    rw [hall a ha, hall b hb]
  have hsub : List.Sublist (l.filter (fun e => decide (e.similarity_score = s)))
      (l.mergeSort matchOrder) :=
    List.sublist_mergeSort matchOrder_trans matchOrder_total hpw (List.filter_sublist l)
  have hself : (l.filter (fun e => decide (e.similarity_score = s))).filter
      (fun e => decide (e.similarity_score = s)) =
      l.filter (fun e => decide (e.similarity_score = s)) := by
    rw [List.filter_eq_self]
    intro a ha
    simp [hall a ha]
  have hsub2 : List.Sublist (l.filter (fun e => decide (e.similarity_score = s)))
      ((l.mergeSort matchOrder).filter (fun e => decide (e.similarity_score = s))) := by
    have := hsub.filter (fun e => decide (e.similarity_score = s))
    rwa [hself] at this
  have hperm : List.Perm
      ((l.mergeSort matchOrder).filter (fun e => decide (e.similarity_score = s)))
      (l.filter (fun e => decide (e.similarity_score = s))) :=
    (l.mergeSort_perm matchOrder).filter _
  exact (hsub2.eq_of_length hperm.length_eq.symm).symm

theorem processResume_entry (model : List Char → Except String (List ℝ))
    (jobId : String) (jobEmbedding : Option (List ℝ)) (threshold : ℝ)
    (resume : Resume) :
    ((processResume model jobId jobEmbedding threshold resume).upsert = none →
      (processResume model jobId jobEmbedding threshold resume).matchEntry = none) ∧
    (∀ rec : MatchRecord,
      (processResume model jobId jobEmbedding threshold resume).upsert = some rec →
      (threshold ≤ rec.similarity_score →
        (processResume model jobId jobEmbedding threshold resume).matchEntry =
          some ⟨resume.id, resume.candidate_name, resume.file_name,
            rec.similarity_score⟩) ∧
      (¬ threshold ≤ rec.similarity_score →
        (processResume model jobId jobEmbedding threshold resume).matchEntry = none)) := by
  simp only [processResume]
  split
  · exact ⟨fun _ => rfl, fun rec h => by simp at h⟩
  · split
    · refine ⟨fun h => by simp at h, fun rec h => ?_⟩
      rw [Option.some.injEq] at h
      subst h
      constructor
      · intro hθ
        simp [ge_iff_le, hθ]
      · intro hθ
        simp [ge_iff_le, hθ]
    · exact ⟨fun _ => rfl, fun rec h => by simp at h⟩

/-- C6: the returned match list is stably sorted by `similarity_score`
descending: it is pairwise descending, a permutation of the entries pushed
in load order (an entry exactly for each resume whose iteration upserted a
record with similarity at or above the threshold, carrying that resume's
id, name, file name and score), and for every score value the entries at
that score keep the relative order in which the resumes were processed. -/
theorem match_list_sorted_and_complete (model : List Char → Except String (List ℝ))
    (job : Job) (resumes : List Resume) (threshold : ℝ) :
    (runMatches model job resumes threshold).matchesList.Pairwise
      (fun a b => b.similarity_score ≤ a.similarity_score) ∧
    List.Perm (runMatches model job resumes threshold).matchesList
      ((resumes.map (processResume model job.id (effectiveJobEmbedding model job)
        threshold)).filterMap StepResult.matchEntry) ∧
    (∀ s : ℝ, (runMatches model job resumes threshold).matchesList.filter
        (fun e => decide (e.similarity_score = s)) =
      ((resumes.map (processResume model job.id (effectiveJobEmbedding model job)
        threshold)).filterMap StepResult.matchEntry).filter
        (fun e => decide (e.similarity_score = s))) ∧
    (∀ resume : Resume,
      ((processResume model job.id (effectiveJobEmbedding model job) threshold
          resume).upsert = none →
        (processResume model job.id (effectiveJobEmbedding model job) threshold
          resume).matchEntry = none) ∧
      (∀ rec : MatchRecord,
        (processResume model job.id (effectiveJobEmbedding model job) threshold
          resume).upsert = some rec →
        (threshold ≤ rec.similarity_score →
          (processResume model job.id (effectiveJobEmbedding model job) threshold
            resume).matchEntry = some ⟨resume.id, resume.candidate_name,
              resume.file_name, rec.similarity_score⟩) ∧
        (¬ threshold ≤ rec.similarity_score →
          (processResume model job.id (effectiveJobEmbedding model job) threshold
            resume).matchEntry = none))) := by
  refine ⟨?_, ?_, ?_, ?_⟩
  · have hs := List.sorted_mergeSort matchOrder_trans matchOrder_total
      ((resumes.map (processResume model job.id (effectiveJobEmbedding model job)
        threshold)).filterMap StepResult.matchEntry)
    simp only [runMatches]
    exact hs.imp (fun h => by simpa [matchOrder] using h)
  · simp only [runMatches]
    exact List.mergeSort_perm _ matchOrder
  · intro s
    simp only [runMatches]
    exact mergeSort_filter_score _ s
  · intro resume
    exact processResume_entry model job.id (effectiveJobEmbedding model job)
      threshold resume

/-- C6 witness: a resume whose iteration upserts no record contributes no
entry to the match list. -/
theorem match_list_sorted_and_complete_witness :
    (processResume (fun _ => Except.error "down") "job-1"
      (effectiveJobEmbedding (fun _ => Except.error "down") ⟨"job-1", none, none⟩)
      (6 / 10) ⟨"res-1", none, none, none, none, "completed"⟩).matchEntry = none :=
  ((match_list_sorted_and_complete (fun _ => Except.error "down")
      ⟨"job-1", none, none⟩ [] (6 / 10)).2.2.2
    ⟨"res-1", none, none, none, none, "completed"⟩).1
    (by simp [processResume, effectiveJobEmbedding, textFalsy])
